import Mathlib

/-!
Shallow embedding of `heat/engine/resources/neutron/net.py` (class `Net`).

The neutron client is modelled as oracles: each fallible remote call is a
function from its argument to `Option NeutronError` (`none` = the call
succeeded, `some e` = the call raised a `NeutronClientException` carrying
`e`).  Each handler of `Net` is embedded as a function returning the list of
remote calls it issued, in order, together with the exception it re-raised
(`none` = the handler returned normally).
-/

namespace Heat

/-- Model of `neutronclient`'s `NeutronClientException`: the `status_code`
attribute, plus whether the exception object is an instance of the
`NetworkNotFoundClient` subclass (tested by `_handle_not_found_exception`). -/
structure NeutronError where
  status_code : Nat
  isNetworkNotFound : Bool
deriving DecidableEq

/-- Model of a Python property value as it appears in the prepared
properties dict: `none_` is Python `None`; the DHCP agent list is `list`. -/
inductive PVal where
  | none_ : PVal
  | str : String → PVal
  | list : List String → PVal
deriving DecidableEq

/-- One remote call issued through the neutron client by `Net`. -/
inductive Call where
  | createNetwork (props : List (String × PVal))
  | showNetwork (rid : String)
  | deleteNetwork (rid : String)
  | updateNetwork (rid : String) (props : List (String × PVal))
  | listAgents (rid : String)
  | addAgent (agentId rid : String)
  | removeAgent (agentId rid : String)
deriving DecidableEq

/-- Does the call hit the `update_network` endpoint? -/
def Call.isUpdate : Call → Bool
  | .updateNetwork _ _ => true
  | _ => false

/-- The property-name constant `Net.DHCP_AGENT_IDS`. -/
def DHCP_AGENT_IDS : String := "dhcp_agent_ids"

/-- Python truthiness of a property value (`if dhcp_agent_ids:`):
`None` and the empty list (and empty string) are falsy. -/
def truthy : PVal → Bool
  | .none_ => false
  | .str s => !s.isEmpty
  | .list l => !l.isEmpty

/-- View a property value as the agent-id list it holds (the schema types
`dhcp_agent_ids` as a LIST, so the other constructors do not occur there). -/
def PVal.asList : PVal → List String
  | .list l => l
  | _ => []

/-- Model of `props.pop(key, None)` on a dict: the stored value (or `None`
when the key is absent) together with the dict without that key. -/
def popKey (k : String) (props : List (String × PVal)) :
    PVal × List (String × PVal) :=
  (match props.lookup k with
   | some v => v
   | none => PVal.none_,
   props.filter (fun p => p.1 != k))

/-- One loop of `_replace_dhcp_agents`: iterate `ids`, issue the call `mk i`
for each; a raised error with `tol e = true` is swallowed and iteration
continues, any other raised error stops the loop and is re-raised. -/
def runPhase (mk : String → Call) (tol : NeutronError → Bool)
    (res : String → Option NeutronError) :
    List String → List Call × Option NeutronError
  | [] => ([], none)
  | i :: rest =>
    match res i with
    | none =>
      let r := runPhase mk tol res rest
      (mk i :: r.1, r.2)
    | some e =>
      if tol e then
        let r := runPhase mk tol res rest
        (mk i :: r.1, r.2)
      else ([mk i], some e)

/-- Tolerance of the add loop: `if ex.status_code != 409: raise ex`. -/
def addTol (e : NeutronError) : Bool := e.status_code == 409

/-- Tolerance of the remove loop:
`if ex.status_code not in (404, 409): raise ex`. -/
def removeTol (e : NeutronError) : Bool :=
  e.status_code == 404 || e.status_code == 409

/-- The set difference `new - old` of `_replace_dhcp_agents`, as the list of
distinct desired ids not observed (iteration order over a Python set is
arbitrary; this fixes one order). -/
def toAdd (desired observed : List String) : List String :=
  desired.dedup.filter (fun i => decide (i ∉ observed.dedup))

/-- The set difference `old - new` of `_replace_dhcp_agents`. -/
def toRemove (desired observed : List String) : List String :=
  observed.dedup.filter (fun i => decide (i ∉ desired.dedup))

/-- Embedding of `Net._replace_dhcp_agents`: list the hosting agents, add
every desired-but-unobserved agent (409 tolerated), then remove every
observed-but-undesired agent (404 and 409 tolerated).  `observed` is the
agent-id list returned by `list_dhcp_agent_hosting_networks`; `addRes` and
`removeRes` are the outcomes of the add/remove endpoint per agent id. -/
def replace_dhcp_agents (rid : String) (dhcp_agent_ids observed : List String)
    (addRes removeRes : String → Option NeutronError) :
    List Call × Option NeutronError :=
  let addPhase :=
    runPhase (fun i => Call.addAgent i rid) addTol addRes
      (toAdd dhcp_agent_ids observed)
  match addPhase.2 with
  | some e => (Call.listAgents rid :: addPhase.1, some e)
  | none =>
    let remPhase :=
      runPhase (fun i => Call.removeAgent i rid) removeTol removeRes
        (toRemove dhcp_agent_ids observed)
    (Call.listAgents rid :: (addPhase.1 ++ remPhase.1), remPhase.2)

/-- Embedding of `Net.handle_create`: pop `dhcp_agent_ids` from the prepared
properties, create the network with the remaining payload (`netId` is the id
the successful create call returns; it is stored via `resource_id_set`), and
when the popped value is truthy run `_replace_dhcp_agents`.  Result: the call
trace, the raised exception, and the stored resource id. -/
def handle_create (props : List (String × PVal)) (netId : String)
    (observed : List String) (addRes removeRes : String → Option NeutronError) :
    List Call × Option NeutronError × Option String :=
  let p := popKey DHCP_AGENT_IDS props
  let c := Call.createNetwork p.2
  if truthy p.1 then
    let r := replace_dhcp_agents netId p.1.asList observed addRes removeRes
    (c :: r.1, r.2, some netId)
  else
    ([c], none, some netId)

/-- Embedding of `Net._show_resource`: one `show_network` call returning the
network attributes. -/
def show_resource {σ : Type} (rid : String) (showNet : String → σ) :
    List Call × σ :=
  ([Call.showNetwork rid], showNet rid)

/-- Embedding of `Net.check_create_complete`: fetch the attributes via
`_show_resource` and return `is_built` of them (`is_built` lives in the
`Resource` base class and is passed in as the externally supplied
predicate). -/
def check_create_complete {σ : Type} (rid : String) (showNet : String → σ)
    (is_built : σ → Bool) : List Call × Bool :=
  let r := show_resource rid showNet
  (r.1, is_built r.2)

/-- Embedding of `Net.check_update_complete`: same body as
`check_create_complete`. -/
def check_update_complete {σ : Type} (rid : String) (showNet : String → σ)
    (is_built : σ → Bool) : List Call × Bool :=
  let r := show_resource rid showNet
  (r.1, is_built r.2)

/-- Embedding of `Net._handle_not_found_exception`: re-raise `ex` unless its
status code is 404 or it is a `NetworkNotFoundClient`. -/
def handle_not_found_exception (ex : NeutronError) : Option NeutronError :=
  if !(ex.status_code == 404 || ex.isNetworkNotFound) then some ex else none

/-- Embedding of `Net.handle_delete`: one `delete_network` call (`delRes` its
outcome); a raised exception is filtered through
`_handle_not_found_exception`.  (On success the source additionally returns
`self._delete_task()`, a scheduling detail outside this model.) -/
def handle_delete (rid : String) (delRes : Option NeutronError) :
    List Call × Option NeutronError :=
  ([Call.deleteNetwork rid],
   match delRes with
   | none => none
   | some ex => handle_not_found_exception ex)

/-- Embedding of `Net.handle_update`: pop `dhcp_agent_ids` from the prepared
update properties; when that key is in `prop_diff`, reconcile agents if the
popped value is not `None` and delete the key from the diff; finally call
`update_network` with the remaining properties iff the remaining diff is
non-empty. -/
def handle_update (rid : String) (props : List (String × PVal))
    (prop_diff : List String) (observed : List String)
    (addRes removeRes : String → Option NeutronError) :
    List Call × Option NeutronError :=
  let p := popKey DHCP_AGENT_IDS props
  let afterAssoc : List Call × Option NeutronError × List String :=
    if DHCP_AGENT_IDS ∈ prop_diff then
      if p.1 ≠ PVal.none_ then
        let r := replace_dhcp_agents rid p.1.asList observed addRes removeRes
        (r.1, r.2, prop_diff.filter (fun k => decide (¬ k = DHCP_AGENT_IDS)))
      else
        ([], none, prop_diff.filter (fun k => decide (¬ k = DHCP_AGENT_IDS)))
    else
      ([], none, prop_diff)
  match afterAssoc.2.1 with
  | some e => (afterAssoc.1, some e)
  | none =>
    if afterAssoc.2.2.length > 0 then
      (afterAssoc.1 ++ [Call.updateNetwork rid p.2], none)
    else
      (afterAssoc.1, none)

/-! Helper lemmas about `runPhase`. -/

/-- A phase that finishes without raising issued exactly one call per id. -/
theorem runPhase_ok_trace (mk : String → Call) (tol : NeutronError → Bool)
    (res : String → Option NeutronError) :
    ∀ ids : List String, (runPhase mk tol res ids).2 = none →
      (runPhase mk tol res ids).1 = ids.map mk := by
  intro ids
  induction ids with
  | nil => intro _; rfl
  | cons i rest ih =>
    intro h
    cases hres : res i with
    | none =>
      simp only [runPhase, hres] at h ⊢
      simp [ih h]
    | some e =>
      by_cases ht : tol e
      · simp only [runPhase, hres, if_pos ht] at h ⊢
        simp [ih h]
      · simp only [runPhase, hres, if_neg ht] at h
        exact Option.noConfusion h

/-- A phase finishes without raising iff every raised error along the whole
id list is tolerated. -/
theorem runPhase_ok_iff (mk : String → Call) (tol : NeutronError → Bool)
    (res : String → Option NeutronError) :
    ∀ ids : List String, (runPhase mk tol res ids).2 = none ↔
      ∀ i ∈ ids, ∀ e, res i = some e → tol e = true := by
  intro ids
  induction ids with
  | nil => simp [runPhase]
  | cons i rest ih =>
    cases hres : res i with
    | none =>
      simp only [runPhase, hres]
      rw [ih]
      constructor
      · intro h j hj e he
        rcases List.mem_cons.mp hj with rfl | hj
        · exact absurd he (by simp [hres])
        · exact h j hj e he
      · intro h j hj e he
        exact h j (List.mem_cons_of_mem _ hj) e he
    | some e =>
      by_cases ht : tol e
      · simp only [runPhase, hres, if_pos ht]
        rw [ih]
        constructor
        · intro h j hj e' he'
          rcases List.mem_cons.mp hj with rfl | hj
          · rw [hres] at he'; cases he'; exact ht
          · exact h j hj e' he'
        · intro h j hj e' he'
          exact h j (List.mem_cons_of_mem _ hj) e' he'
      · simp only [runPhase, hres, if_neg ht]
        constructor
        · intro h; cases h
        · intro h
          exact absurd (h i (List.mem_cons_self i rest) e hres) ht

/-- Every call a phase issues is `mk` of one of its ids. -/
theorem runPhase_shape (mk : String → Call) (tol : NeutronError → Bool)
    (res : String → Option NeutronError) :
    ∀ ids : List String, ∀ c ∈ (runPhase mk tol res ids).1,
      ∃ i, i ∈ ids ∧ c = mk i := by
  intro ids
  induction ids with
  | nil => intro c hc; simp [runPhase] at hc
  | cons i rest ih =>
    intro c hc
    cases hres : res i with
    | none =>
      simp only [runPhase, hres] at hc
      rcases List.mem_cons.mp hc with rfl | hc
      · exact ⟨i, List.mem_cons_self i rest, rfl⟩
      · rcases ih c hc with ⟨j, hj, rfl⟩
        exact ⟨j, List.mem_cons_of_mem _ hj, rfl⟩
    | some e =>
      by_cases ht : tol e
      · simp only [runPhase, hres, if_pos ht] at hc
        rcases List.mem_cons.mp hc with rfl | hc
        · exact ⟨i, List.mem_cons_self i rest, rfl⟩
        · rcases ih c hc with ⟨j, hj, rfl⟩
          exact ⟨j, List.mem_cons_of_mem _ hj, rfl⟩
      · simp only [runPhase, hres, if_neg ht] at hc
        rcases List.mem_cons.mp hc with rfl | hc
        · exact ⟨i, List.mem_cons_self i rest, rfl⟩
        · simp at hc

/-- When the ids reach an intolerable failure at `x`, with every earlier
raised error tolerated, the phase issues exactly the calls up to and
including `x` and re-raises that error. -/
theorem runPhase_fail (mk : String → Call) (tol : NeutronError → Bool)
    (res : String → Option NeutronError) (e : NeutronError) :
    ∀ pre : List String, ∀ x : String, ∀ post : List String,
      (∀ i ∈ pre, ∀ e', res i = some e' → tol e' = true) →
      res x = some e → tol e = false →
      runPhase mk tol res (pre ++ x :: post) =
        (pre.map mk ++ [mk x], some e) := by
  intro pre
  induction pre with
  | nil =>
    intro x post _ hx hne
    have hne' : ¬ tol e = true := by simp [hne]
    simp [runPhase, hx, hne']
  | cons i rest ih =>
    intro x post hpre hx hne
    have hrest := ih x post
      (fun j hj => hpre j (List.mem_cons_of_mem _ hj)) hx hne
    cases hres : res i with
    | none =>
      simp only [List.cons_append, runPhase, hres, List.append_eq, hrest]
      simp
    | some e' =>
      have ht : tol e' = true := hpre i (List.mem_cons_self i rest) e' hres
      simp only [List.cons_append, runPhase, hres, if_pos ht, List.append_eq,
        hrest]
      simp

/-! Helper lemmas about the set differences and the reconciler's trace. -/

/-- Membership in `new - old` is exactly desired-and-not-observed. -/
theorem mem_toAdd (desired observed : List String) (a : String) :
    a ∈ toAdd desired observed ↔ a ∈ desired ∧ a ∉ observed := by
  simp [toAdd, List.mem_filter, List.mem_dedup]

/-- Membership in `old - new` is exactly observed-and-not-desired. -/
theorem mem_toRemove (desired observed : List String) (a : String) :
    a ∈ toRemove desired observed ↔ a ∈ observed ∧ a ∉ desired := by
  simp [toRemove, List.mem_filter, List.mem_dedup]

/-- The lists `toAdd` and `toRemove` have no duplicates (they model sets). -/
theorem nodup_toAdd (desired observed : List String) :
    (toAdd desired observed).Nodup :=
  (List.nodup_dedup desired).filter _

theorem nodup_toRemove (desired observed : List String) :
    (toRemove desired observed).Nodup :=
  (List.nodup_dedup observed).filter _

/-- On every element of a nodup list the count is 1, off it 0. -/
theorem count_of_nodup (l : List String) (hl : l.Nodup) (a : String) :
    l.count a = if a ∈ l then 1 else 0 := by
  by_cases h : a ∈ l
  · rw [if_pos h]; exact List.count_eq_one_of_mem hl h
  · rw [if_neg h]; exact List.count_eq_zero_of_not_mem h

/-- The success outcome of the reconciler, split by phase. -/
theorem replace_ok_iff_phases (rid : String) (desired observed : List String)
    (addRes removeRes : String → Option NeutronError) :
    (replace_dhcp_agents rid desired observed addRes removeRes).2 = none ↔
      ((runPhase (fun i => Call.addAgent i rid) addTol addRes
          (toAdd desired observed)).2 = none ∧
       (runPhase (fun i => Call.removeAgent i rid) removeTol removeRes
          (toRemove desired observed)).2 = none) := by
  unfold replace_dhcp_agents
  cases hA : (runPhase (fun i => Call.addAgent i rid) addTol addRes
      (toAdd desired observed)).2 with
  | none => simp [hA]
  | some e => simp [hA]

/-- A successful run's trace: the listing call, then one add call per
element of `toAdd`, then one remove call per element of `toRemove`. -/
theorem replace_ok_trace (rid : String) (desired observed : List String)
    (addRes removeRes : String → Option NeutronError)
    (hok : (replace_dhcp_agents rid desired observed addRes removeRes).2 = none) :
    (replace_dhcp_agents rid desired observed addRes removeRes).1 =
      Call.listAgents rid ::
        ((toAdd desired observed).map (fun i => Call.addAgent i rid) ++
         (toRemove desired observed).map (fun i => Call.removeAgent i rid)) := by
  rcases (replace_ok_iff_phases rid desired observed addRes removeRes).mp hok
    with ⟨hA, hR⟩
  unfold replace_dhcp_agents
  simp only [hA]
  rw [runPhase_ok_trace _ _ _ _ hA, runPhase_ok_trace _ _ _ _ hR]

theorem addAgent_injective (rid : String) :
    Function.Injective (fun i => Call.addAgent i rid) := by
  intro a b h
  simpa using h

theorem removeAgent_injective (rid : String) :
    Function.Injective (fun i => Call.removeAgent i rid) := by
  intro a b h
  simpa using h

/-- An add call never occurs among the remove phase's calls. -/
theorem count_addAgent_in_removeMap (rid rid' a : String) (l : List String) :
    (l.map (fun i => Call.removeAgent i rid)).count (Call.addAgent a rid') = 0 := by
  rw [List.count_eq_zero]
  intro h
  rcases List.mem_map.mp h with ⟨i, _, hi⟩
  simp at hi

/-- A remove call never occurs among the add phase's calls. -/
theorem count_removeAgent_in_addMap (rid rid' a : String) (l : List String) :
    (l.map (fun i => Call.addAgent i rid)).count (Call.removeAgent a rid') = 0 := by
  rw [List.count_eq_zero]
  intro h
  rcases List.mem_map.mp h with ⟨i, _, hi⟩
  simp at hi

/-- C1: a successful run of `_replace_dhcp_agents` with desired list D and
observed list O issues exactly one add call for each id in D − O, exactly
one remove call for each id in O − D, and no association call at all for
any id in D ∩ O. -/
theorem reconcile_minimal_calls (rid a : String) (desired observed : List String)
    (addRes removeRes : String → Option NeutronError)
    (hok : (replace_dhcp_agents rid desired observed addRes removeRes).2 = none) :
    ((replace_dhcp_agents rid desired observed addRes removeRes).1.count
        (Call.addAgent a rid) = if a ∈ desired ∧ a ∉ observed then 1 else 0) ∧
    ((replace_dhcp_agents rid desired observed addRes removeRes).1.count
        (Call.removeAgent a rid) = if a ∈ observed ∧ a ∉ desired then 1 else 0) ∧
    (a ∈ desired ∧ a ∈ observed →
      Call.addAgent a rid ∉
        (replace_dhcp_agents rid desired observed addRes removeRes).1 ∧
      Call.removeAgent a rid ∉
        (replace_dhcp_agents rid desired observed addRes removeRes).1) := by
  have htr := replace_ok_trace rid desired observed addRes removeRes hok
  have hadd : (replace_dhcp_agents rid desired observed addRes removeRes).1.count
      (Call.addAgent a rid) = if a ∈ desired ∧ a ∉ observed then 1 else 0 := by
    rw [htr]
    rw [List.count_cons, List.count_append,
      List.count_map_of_injective _ _ (addAgent_injective rid) a,
      count_addAgent_in_removeMap,
      count_of_nodup _ (nodup_toAdd desired observed) a]
    simp [mem_toAdd]
  have hrem : (replace_dhcp_agents rid desired observed addRes removeRes).1.count
      (Call.removeAgent a rid) = if a ∈ observed ∧ a ∉ desired then 1 else 0 := by
    rw [htr]
    rw [List.count_cons, List.count_append,
      List.count_map_of_injective _ _ (removeAgent_injective rid) a,
      count_removeAgent_in_addMap,
      count_of_nodup _ (nodup_toRemove desired observed) a]
    simp [mem_toRemove]
  refine ⟨hadd, hrem, ?_⟩
  rintro ⟨hd, ho⟩
  constructor
  · refine List.count_eq_zero.mp ?_
    rw [hadd, if_neg]
    intro hcon
    exact hcon.2 ho
  · refine List.count_eq_zero.mp ?_
    rw [hrem, if_neg]
    intro hcon
    exact hcon.2 hd

/-- Witness for C1: D = \x7ba,b\x7d, O = \x7bb,c\x7d with all calls
succeeding gives one add of a, one remove of c and no call touching b. -/
theorem reconcile_minimal_calls_witness :
    ((replace_dhcp_agents "n" ["a", "b"] ["b", "c"]
        (fun _ => none) (fun _ => none)).1.count (Call.addAgent "a" "n") =
      if "a" ∈ ["a", "b"] ∧ "a" ∉ ["b", "c"] then 1 else 0) ∧
    ((replace_dhcp_agents "n" ["a", "b"] ["b", "c"]
        (fun _ => none) (fun _ => none)).1.count (Call.removeAgent "a" "n") =
      if "a" ∈ ["b", "c"] ∧ "a" ∉ ["a", "b"] then 1 else 0) ∧
    ("a" ∈ ["a", "b"] ∧ "a" ∈ ["b", "c"] →
      Call.addAgent "a" "n" ∉
        (replace_dhcp_agents "n" ["a", "b"] ["b", "c"]
          (fun _ => none) (fun _ => none)).1 ∧
      Call.removeAgent "a" "n" ∉
        (replace_dhcp_agents "n" ["a", "b"] ["b", "c"]
          (fun _ => none) (fun _ => none)).1) :=
  reconcile_minimal_calls "n" "a" ["a", "b"] ["b", "c"]
    (fun _ => none) (fun _ => none) (by decide)

/-- C2: the reconciler succeeds exactly when every add failure along D − O
has status 409 and every remove failure along O − D has status 404 or 409;
any other status code makes it fail. -/
theorem reconcile_error_policy (rid : String) (desired observed : List String)
    (addRes removeRes : String → Option NeutronError) :
    (replace_dhcp_agents rid desired observed addRes removeRes).2 = none ↔
      ((∀ i, i ∈ desired → i ∉ observed → ∀ e, addRes i = some e →
          e.status_code = 409) ∧
       (∀ i, i ∈ observed → i ∉ desired → ∀ e, removeRes i = some e →
          e.status_code = 404 ∨ e.status_code = 409)) := by
  rw [replace_ok_iff_phases, runPhase_ok_iff, runPhase_ok_iff]
  constructor
  · rintro ⟨hA, hR⟩
    constructor
    · intro i hd ho e he
      have := hA i ((mem_toAdd desired observed i).mpr ⟨hd, ho⟩) e he
      simpa [addTol] using this
    · intro i ho hd e he
      have := hR i ((mem_toRemove desired observed i).mpr ⟨ho, hd⟩) e he
      simpa [removeTol] using this
  · rintro ⟨hA, hR⟩
    constructor
    · intro i hi e he
      rcases (mem_toAdd desired observed i).mp hi with ⟨hd, ho⟩
      simp [addTol, hA i hd ho e he]
    · intro i hi e he
      rcases (mem_toRemove desired observed i).mp hi with ⟨ho, hd⟩
      rcases hR i ho hd e he with h4 | h9
      · simp [removeTol, h4]
      · simp [removeTol, h9]

/-- C3: an add failure with a status code other than 409 (for example 500)
stops the reconciler right after the failing call: the trace is the listing
call, the tolerated earlier adds, and the failing add, with none of the
remaining adds and no remove issued, and the raised error is the original
one. -/
theorem reconcile_add_failure_aborts (rid : String) (desired observed : List String)
    (addRes removeRes : String → Option NeutronError)
    (pre post : List String) (x : String) (e : NeutronError)
    (hsplit : toAdd desired observed = pre ++ x :: post)
    (hpre : ∀ i ∈ pre, ∀ e', addRes i = some e' → e'.status_code = 409)
    (hx : addRes x = some e) (hne : e.status_code ≠ 409) :
    replace_dhcp_agents rid desired observed addRes removeRes =
      (Call.listAgents rid ::
        (pre.map (fun i => Call.addAgent i rid) ++ [Call.addAgent x rid]),
       some e) := by
  have hfail := runPhase_fail (fun i => Call.addAgent i rid) addTol addRes e
    pre x post (fun i hi e' he' => by simp [addTol, hpre i hi e' he'])
    hx (by simp [addTol, hne])
  unfold replace_dhcp_agents
  rw [hsplit, hfail]

/-- Witness for C3: desired adds a then b against an empty observed set, a
fails with 500: only the listing call and the failing add are issued and
the 500 error surfaces unmasked. -/
theorem reconcile_add_failure_aborts_witness :
    replace_dhcp_agents "n" ["a", "b"] []
        (fun _ => some ⟨500, false⟩) (fun _ => none) =
      (Call.listAgents "n" ::
        (List.map (fun i => Call.addAgent i "n") [] ++ [Call.addAgent "a" "n"]),
       some ⟨500, false⟩) :=
  reconcile_add_failure_aborts "n" ["a", "b"] []
    (fun _ => some ⟨500, false⟩) (fun _ => none) [] ["b"] "a" ⟨500, false⟩
    (by decide) (by simp) rfl (by decide)

/-- C5: `handle_delete` swallows a delete failure whose status code is 404
or whose exception is the not-found variant (idempotent delete), and
propagates every other failure unchanged; a successful delete raises
nothing. -/
theorem delete_not_found_idempotent (rid : String) (e : NeutronError) :
    ((e.status_code = 404 ∨ e.isNetworkNotFound = true) →
      (handle_delete rid (some e)).2 = none) ∧
    (e.status_code ≠ 404 → e.isNetworkNotFound = false →
      (handle_delete rid (some e)).2 = some e) ∧
    (handle_delete rid none).2 = none := by
  refine ⟨?_, ?_, rfl⟩
  · rintro (h | h) <;> simp [handle_delete, handle_not_found_exception, h]
  · intro h4 hnf
    simp [handle_delete, handle_not_found_exception, h4, hnf]

/-- C6: in every run of the reconciler, every add call comes before every
remove call: the trace is the listing call, then adds only, then removes
only. -/
theorem reconcile_add_phase_before_remove_phase (rid : String)
    (desired observed : List String)
    (addRes removeRes : String → Option NeutronError) :
    ∃ adds removes : List Call,
      (replace_dhcp_agents rid desired observed addRes removeRes).1 =
        Call.listAgents rid :: (adds ++ removes) ∧
      (∀ c ∈ adds, ∃ i, c = Call.addAgent i rid) ∧
      (∀ c ∈ removes, ∃ i, c = Call.removeAgent i rid) := by
  unfold replace_dhcp_agents
  cases hA : (runPhase (fun i => Call.addAgent i rid) addTol addRes
      (toAdd desired observed)).2 with
  | some e =>
    refine ⟨(runPhase (fun i => Call.addAgent i rid) addTol addRes
        (toAdd desired observed)).1, [], by simp [hA], ?_, by simp⟩
    intro c hc
    rcases runPhase_shape _ _ _ _ c hc with ⟨i, _, rfl⟩
    exact ⟨i, rfl⟩
  | none =>
    refine ⟨(runPhase (fun i => Call.addAgent i rid) addTol addRes
        (toAdd desired observed)).1,
      (runPhase (fun i => Call.removeAgent i rid) removeTol removeRes
        (toRemove desired observed)).1, by simp [hA], ?_, ?_⟩
    · intro c hc
      rcases runPhase_shape _ _ _ _ c hc with ⟨i, _, rfl⟩
      exact ⟨i, rfl⟩
    · intro c hc
      rcases runPhase_shape _ _ _ _ c hc with ⟨i, _, rfl⟩
      exact ⟨i, rfl⟩

/-- C8: `check_create_complete` and `check_update_complete` each issue
exactly the one `show_network` call and return `is_built` of the fetched
snapshot, nothing else. -/
theorem check_complete_single_show {σ : Type} (rid : String)
    (showNet : String → σ) (is_built : σ → Bool) :
    check_create_complete rid showNet is_built =
      ([Call.showNetwork rid], is_built (showNet rid)) ∧
    check_update_complete rid showNet is_built =
      ([Call.showNetwork rid], is_built (showNet rid)) :=
  ⟨rfl, rfl⟩

/-! Helper lemmas about `handle_update` and the reconciler's trace shape. -/

/-- The reconciler never calls the `update_network` endpoint. -/
theorem replace_trace_no_update (rid : String) (desired observed : List String)
    (addRes removeRes : String → Option NeutronError) :
    (replace_dhcp_agents rid desired observed addRes removeRes).1.countP
      Call.isUpdate = 0 := by
  rw [List.countP_eq_zero]
  intro c hc
  have hshape : c = Call.listAgents rid ∨ (∃ i, c = Call.addAgent i rid) ∨
      (∃ i, c = Call.removeAgent i rid) := by
    unfold replace_dhcp_agents at hc
    cases hA : (runPhase (fun i => Call.addAgent i rid) addTol addRes
        (toAdd desired observed)).2 with
    | some e =>
      simp only [hA] at hc
      rcases List.mem_cons.mp hc with rfl | hc
      · exact Or.inl rfl
      · rcases runPhase_shape _ _ _ _ c hc with ⟨i, _, rfl⟩
        exact Or.inr (Or.inl ⟨i, rfl⟩)
    | none =>
      simp only [hA] at hc
      rcases List.mem_cons.mp hc with rfl | hc
      · exact Or.inl rfl
      · rcases List.mem_append.mp hc with h | h
        · rcases runPhase_shape _ _ _ _ c h with ⟨i, _, rfl⟩
          exact Or.inr (Or.inl ⟨i, rfl⟩)
        · rcases runPhase_shape _ _ _ _ c h with ⟨i, _, rfl⟩
          exact Or.inr (Or.inr ⟨i, rfl⟩)
  rcases hshape with rfl | ⟨i, rfl⟩ | ⟨i, rfl⟩ <;> simp [Call.isUpdate]

/-- Normal form of `handle_update` when the diff holds the association key
and the popped value is not `None`: reconcile, then update iff the
remaining diff is non-empty. -/
theorem handle_update_assoc (rid : String) (props : List (String × PVal))
    (prop_diff : List String) (observed : List String)
    (addRes removeRes : String → Option NeutronError) (v : PVal)
    (hdiff : DHCP_AGENT_IDS ∈ prop_diff)
    (hv : (popKey DHCP_AGENT_IDS props).1 = v) (hvne : v ≠ PVal.none_) :
    handle_update rid props prop_diff observed addRes removeRes =
      (match (replace_dhcp_agents rid v.asList observed addRes removeRes).2 with
       | some e =>
         ((replace_dhcp_agents rid v.asList observed addRes removeRes).1, some e)
       | none =>
         if (prop_diff.filter
              (fun k => decide (¬ k = DHCP_AGENT_IDS))).length > 0 then
           ((replace_dhcp_agents rid v.asList observed addRes removeRes).1 ++
             [Call.updateNetwork rid (popKey DHCP_AGENT_IDS props).2], none)
         else
           ((replace_dhcp_agents rid v.asList observed addRes removeRes).1,
            none)) := by
  simp only [handle_update, hv, if_pos hdiff, if_pos hvne]

/-- Normal form of `handle_update` when the diff holds the association key
but its resolved value is `None`: no reconciliation, update iff the
remaining diff is non-empty. -/
theorem handle_update_assoc_none (rid : String) (props : List (String × PVal))
    (prop_diff : List String) (observed : List String)
    (addRes removeRes : String → Option NeutronError)
    (hdiff : DHCP_AGENT_IDS ∈ prop_diff)
    (hv : (popKey DHCP_AGENT_IDS props).1 = PVal.none_) :
    handle_update rid props prop_diff observed addRes removeRes =
      (if (prop_diff.filter
            (fun k => decide (¬ k = DHCP_AGENT_IDS))).length > 0 then
         ([Call.updateNetwork rid (popKey DHCP_AGENT_IDS props).2], none)
       else ([], none)) := by
  have hvne : ¬ (PVal.none_ ≠ PVal.none_) := by simp
  simp only [handle_update, hv, if_pos hdiff, if_neg hvne]
  split <;> simp

/-- Normal form of `handle_update` when the diff does not hold the
association key: no reconciliation, update iff the diff is non-empty. -/
theorem handle_update_no_assoc (rid : String) (props : List (String × PVal))
    (prop_diff : List String) (observed : List String)
    (addRes removeRes : String → Option NeutronError)
    (hdiff : DHCP_AGENT_IDS ∉ prop_diff) :
    handle_update rid props prop_diff observed addRes removeRes =
      (if prop_diff.length > 0 then
         ([Call.updateNetwork rid (popKey DHCP_AGENT_IDS props).2], none)
       else ([], none)) := by
  simp only [handle_update, if_neg hdiff]
  split <;> simp

/-- C4: an update whose property diff holds only the association field
issues zero `update_network` calls and exactly the reconciler's trace;
conversely when the diff minus the association field is non-empty and the
run succeeds, exactly one `update_network` call goes out. -/
theorem update_association_only_no_update_call (rid : String)
    (props : List (String × PVal)) (prop_diff : List String)
    (observed : List String) (addRes removeRes : String → Option NeutronError)
    (ids : List String) :
    (DHCP_AGENT_IDS ∈ prop_diff →
      (popKey DHCP_AGENT_IDS props).1 = PVal.list ids →
      prop_diff.filter (fun k => decide (¬ k = DHCP_AGENT_IDS)) = [] →
      handle_update rid props prop_diff observed addRes removeRes =
        replace_dhcp_agents rid ids observed addRes removeRes ∧
      (handle_update rid props prop_diff observed addRes removeRes).1.countP
        Call.isUpdate = 0) ∧
    (prop_diff.filter (fun k => decide (¬ k = DHCP_AGENT_IDS)) ≠ [] →
      (handle_update rid props prop_diff observed addRes removeRes).2 = none →
      (handle_update rid props prop_diff observed addRes removeRes).1.countP
        Call.isUpdate = 1) := by
  constructor
  · intro hdiff hval hfil
    have heq : handle_update rid props prop_diff observed addRes removeRes =
        replace_dhcp_agents rid ids observed addRes removeRes := by
      rw [handle_update_assoc rid props prop_diff observed addRes removeRes
        (PVal.list ids) hdiff hval (by simp)]
      rw [hfil]
      cases hr : (replace_dhcp_agents rid (PVal.list ids).asList observed
          addRes removeRes).2 with
      | some e =>
        simp only [PVal.asList] at hr ⊢
        simp [hr, Prod.ext_iff]
      | none =>
        simp only [PVal.asList] at hr ⊢
        simp [hr, Prod.ext_iff]
    refine ⟨heq, ?_⟩
    rw [heq]
    exact replace_trace_no_update rid ids observed addRes removeRes
  · intro hfil hok
    by_cases hdiff : DHCP_AGENT_IDS ∈ prop_diff
    · cases hv : (popKey DHCP_AGENT_IDS props).1 with
      | none_ =>
        rw [handle_update_assoc_none rid props prop_diff observed addRes
          removeRes hdiff hv,
          if_pos (List.length_pos.mpr hfil)]
        simp [Call.isUpdate]
      | str s =>
        have hform := handle_update_assoc rid props prop_diff observed addRes
          removeRes (PVal.str s) hdiff hv (by simp)
        rw [hform] at hok ⊢
        cases hr : (replace_dhcp_agents rid (PVal.str s).asList observed
            addRes removeRes).2 with
        | some e => simp [hr] at hok
        | none =>
          simp only [hr] at hok ⊢
          rw [if_pos (List.length_pos.mpr hfil)] at hok ⊢
          simp [List.countP_append, replace_trace_no_update, Call.isUpdate]
      | list l =>
        have hform := handle_update_assoc rid props prop_diff observed addRes
          removeRes (PVal.list l) hdiff hv (by simp)
        rw [hform] at hok ⊢
        cases hr : (replace_dhcp_agents rid (PVal.list l).asList observed
            addRes removeRes).2 with
        | some e => simp [hr] at hok
        | none =>
          simp only [hr] at hok ⊢
          rw [if_pos (List.length_pos.mpr hfil)] at hok ⊢
          simp [List.countP_append, replace_trace_no_update, Call.isUpdate]
    · have hfilid : prop_diff.filter (fun k => decide (¬ k = DHCP_AGENT_IDS)) =
          prop_diff := by
        rw [List.filter_eq_self]
        intro a ha
        simp only [decide_eq_true_eq]
        intro h
        exact hdiff (h ▸ ha)
      rw [hfilid] at hfil
      rw [handle_update_no_assoc rid props prop_diff observed addRes removeRes
        hdiff, if_pos (List.length_pos.mpr hfil)]
      simp [Call.isUpdate]

/-- The popped key is gone from the remaining payload. -/
theorem popKey_no_key (k : String) (props : List (String × PVal)) (v : PVal) :
    (k, v) ∉ (popKey k props).2 := by
  intro h
  have h2 := (List.mem_filter.mp h).2
  simp at h2

/-- Counterexample to C7: the config supplies the association field as an
explicit empty list, yet `handle_create` issues no association call at all
(no listing, no add, no remove) — the guard `if dhcp_agent_ids:` is Python
truthiness, not presence. -/
theorem create_reconcile_guard_counterexample :
    (popKey DHCP_AGENT_IDS [(DHCP_AGENT_IDS, PVal.list [])]).1 = PVal.list [] ∧
    handle_create [(DHCP_AGENT_IDS, PVal.list [])] "net-1" []
        (fun _ => none) (fun _ => none) =
      ([Call.createNetwork []], none, some "net-1") ∧
    Call.listAgents "net-1" ∉
      (handle_create [(DHCP_AGENT_IDS, PVal.list [])] "net-1" []
        (fun _ => none) (fun _ => none)).1 := by
  refine ⟨rfl, rfl, by decide⟩

/-- C7 as amended: `handle_create` strips the association field from the
create payload, stores the returned handle, and whenever a NON-EMPTY
association list was supplied it runs `_replace_dhcp_agents` right after the
handle is assigned. -/
theorem create_strips_and_reconciles_nonempty (props : List (String × PVal))
    (netId : String) (observed : List String)
    (addRes removeRes : String → Option NeutronError) (ids : List String)
    (hval : (popKey DHCP_AGENT_IDS props).1 = PVal.list ids)
    (hne : ids ≠ []) :
    handle_create props netId observed addRes removeRes =
      (Call.createNetwork (popKey DHCP_AGENT_IDS props).2 ::
         (replace_dhcp_agents netId ids observed addRes removeRes).1,
       (replace_dhcp_agents netId ids observed addRes removeRes).2,
       some netId) ∧
    (∀ v : PVal, (DHCP_AGENT_IDS, v) ∉ (popKey DHCP_AGENT_IDS props).2) := by
  refine ⟨?_, fun v => popKey_no_key DHCP_AGENT_IDS props v⟩
  simp only [handle_create, hval]
  have ht : truthy (PVal.list ids) = true := by
    cases ids with
    | nil => exact absurd rfl hne
    | cons a t => rfl
  rw [if_pos ht]
  rfl

/-- Witness for the amended C7 at a concrete input: name plus a one-agent
association list. -/
theorem create_strips_and_reconciles_nonempty_witness :
    handle_create [("name", PVal.str "net"), (DHCP_AGENT_IDS, PVal.list ["a"])]
        "n7" [] (fun _ => none) (fun _ => none) =
      (Call.createNetwork (popKey DHCP_AGENT_IDS
          [("name", PVal.str "net"), (DHCP_AGENT_IDS, PVal.list ["a"])]).2 ::
         (replace_dhcp_agents "n7" ["a"] [] (fun _ => none) (fun _ => none)).1,
       (replace_dhcp_agents "n7" ["a"] [] (fun _ => none) (fun _ => none)).2,
       some "n7") ∧
    (∀ v : PVal, (DHCP_AGENT_IDS, v) ∉ (popKey DHCP_AGENT_IDS
        [("name", PVal.str "net"), (DHCP_AGENT_IDS, PVal.list ["a"])]).2) :=
  create_strips_and_reconciles_nonempty
    [("name", PVal.str "net"), (DHCP_AGENT_IDS, PVal.list ["a"])]
    "n7" [] (fun _ => none) (fun _ => none) ["a"] rfl (by decide)

/-- C9: on create, an explicitly supplied but empty `dhcp_agent_ids` list is
silently skipped: the create call goes out with the field stripped, the
handle is stored, and no association call of any kind is issued. -/
theorem create_empty_agent_list_skips_reconcile (props : List (String × PVal))
    (netId : String) (observed : List String)
    (addRes removeRes : String → Option NeutronError)
    (hval : (popKey DHCP_AGENT_IDS props).1 = PVal.list []) :
    handle_create props netId observed addRes removeRes =
      ([Call.createNetwork (popKey DHCP_AGENT_IDS props).2], none,
       some netId) := by
  simp only [handle_create, hval]
  rfl

/-- Witness for C9: an empty association list next to observed agents that
are left in place. -/
theorem create_empty_agent_list_skips_reconcile_witness :
    handle_create [(DHCP_AGENT_IDS, PVal.list [])] "net-2" ["x"]
        (fun _ => none) (fun _ => none) =
      ([Call.createNetwork (popKey DHCP_AGENT_IDS
          [(DHCP_AGENT_IDS, PVal.list [])]).2], none, some "net-2") :=
  create_empty_agent_list_skips_reconcile [(DHCP_AGENT_IDS, PVal.list [])]
    "net-2" ["x"] (fun _ => none) (fun _ => none) rfl

/-- C10: when the diff holds the association key but its resolved value is
`None`, the key is still dropped from the diff and reconciliation is
skipped, so an otherwise-empty diff issues no remote call at all; an
explicitly empty list instead reconciles against desired = ∅, removing
every observed agent. -/
theorem update_none_skips_vs_empty_removes_all (rid : String)
    (props : List (String × PVal)) (prop_diff : List String)
    (observed : List String) (addRes removeRes : String → Option NeutronError)
    (hdiff : DHCP_AGENT_IDS ∈ prop_diff) :
    ((popKey DHCP_AGENT_IDS props).1 = PVal.none_ →
      prop_diff.filter (fun k => decide (¬ k = DHCP_AGENT_IDS)) = [] →
      handle_update rid props prop_diff observed addRes removeRes =
        ([], none)) ∧
    ((popKey DHCP_AGENT_IDS props).1 = PVal.list [] →
      (handle_update rid props prop_diff observed addRes removeRes).2 = none →
      ∀ i ∈ observed, Call.removeAgent i rid ∈
        (handle_update rid props prop_diff observed addRes removeRes).1) := by
  constructor
  · intro hv hfil
    rw [handle_update_assoc_none rid props prop_diff observed addRes removeRes
      hdiff hv, hfil]
    simp
  · intro hv hok
    have hform := handle_update_assoc rid props prop_diff observed addRes
      removeRes (PVal.list []) hdiff hv (by simp)
    rw [hform] at hok ⊢
    cases hr : (replace_dhcp_agents rid (PVal.list []).asList observed
        addRes removeRes).2 with
    | some e => simp [hr] at hok
    | none =>
      simp only [hr] at hok ⊢
      have htr := replace_ok_trace rid (PVal.list []).asList observed
        addRes removeRes hr
      have htodo : toRemove (PVal.list []).asList observed = observed.dedup := by
        simp [toRemove, PVal.asList]
      intro i hi
      have hmem : Call.removeAgent i rid ∈
          (replace_dhcp_agents rid (PVal.list []).asList observed
            addRes removeRes).1 := by
        rw [htr, htodo]
        refine List.mem_cons_of_mem _ (List.mem_append_right _ ?_)
        exact List.mem_map.mpr ⟨i, List.mem_dedup.mpr hi, rfl⟩
      split
      · exact List.mem_append_left _ hmem
      · exact hmem

/-- Witness for C10 at a concrete input: diff holding only the association
key, empty desired list, one observed agent that gets removed. -/
theorem update_none_skips_vs_empty_removes_all_witness :
    ((popKey DHCP_AGENT_IDS [(DHCP_AGENT_IDS, PVal.list [])]).1 = PVal.none_ →
      (["dhcp_agent_ids"] : List String).filter
        (fun k => decide (¬ k = DHCP_AGENT_IDS)) = [] →
      handle_update "n10" [(DHCP_AGENT_IDS, PVal.list [])] ["dhcp_agent_ids"]
        ["x"] (fun _ => none) (fun _ => none) = ([], none)) ∧
    ((popKey DHCP_AGENT_IDS [(DHCP_AGENT_IDS, PVal.list [])]).1 =
        PVal.list [] →
      (handle_update "n10" [(DHCP_AGENT_IDS, PVal.list [])] ["dhcp_agent_ids"]
        ["x"] (fun _ => none) (fun _ => none)).2 = none →
      ∀ i ∈ (["x"] : List String), Call.removeAgent i "n10" ∈
        (handle_update "n10" [(DHCP_AGENT_IDS, PVal.list [])]
          ["dhcp_agent_ids"] ["x"] (fun _ => none) (fun _ => none)).1) :=
  update_none_skips_vs_empty_removes_all "n10" [(DHCP_AGENT_IDS, PVal.list [])]
    ["dhcp_agent_ids"] ["x"] (fun _ => none) (fun _ => none) (by decide)

end Heat
